import Mathlib

/- Verification of the projectile / zone-crossing simulation core of the dome
   visualization demos.

   The embedding follows the Python sources:
   * `Projectile`, `Projectile.update`, `get_zone_color`, the engine cycle and
     the spawn timer come from newcholaworkingalldirectionsfastcsv.py (the
     richest variant; newcholaworkingalldirectionsnewytrenewall.py and
     newcholaworkingcodenewqmanytrajectory.py contain the identical crossing
     logic without impact markers, newcholaworkingalldirectionsnew.py the same
     integration and deactivation without crossing detection).
   * `ProjectileR` and `ProjectileR.update` come from
     newcholaworkingcodetrajectoryredalert.py, the gravity variant with the
     offset dome center (0, inner_dome_radius/2, 0).

   Positions and velocities are exact rationals.  The Python code compares
   Euclidean norms (np.linalg.norm) only against the nonnegative radii
   300 and 320, so the embedding tracks the squared distance and compares it
   against the squared radius; for nonnegative quantities the two comparisons
   are equivalent, and the embedding stays exactly computable.  The stored
   field prev_distance of the source therefore becomes prev_distance_sq here,
   used in exactly the same comparisons.

   random.uniform(0.3, 1.0) (the impact-marker display radius) is modelled as
   an oracle value handed to the update: the update receives the rational the
   generator would produce and uses it only when a marker is created. -/

namespace DomeSim

/-- Three-component vector over ℚ, standing for the numpy float arrays of the
source. -/
structure Vec3 where
  x : ℚ
  y : ℚ
  z : ℚ
deriving DecidableEq

/-- Componentwise vector addition. -/
def vadd (a b : Vec3) : Vec3 := ⟨a.x + b.x, a.y + b.y, a.z + b.z⟩

/-- Scalar multiplication. -/
def smul (c : ℚ) (v : Vec3) : Vec3 := ⟨c * v.x, c * v.y, c * v.z⟩

/-- Componentwise vector subtraction. -/
def vsub (a b : Vec3) : Vec3 := ⟨a.x - b.x, a.y - b.y, a.z - b.z⟩

/-- Squared Euclidean norm: the square of np.linalg.norm. -/
def normSq (v : Vec3) : ℚ := v.x ^ 2 + v.y ^ 2 + v.z ^ 2

/-- Squared horizontal distance from the vertical axis:
the square of math.sqrt(x**2 + z**2). -/
def horizNormSq (v : Vec3) : ℚ := v.x ^ 2 + v.z ^ 2

/-- Configuration constant inner_dome_radius = 300. -/
def inner_dome_radius : ℚ := 300

/-- Configuration constant outer_dome_radius = 320. -/
def outer_dome_radius : ℚ := 320

/-- Squared inner radius, the threshold the squared distances are compared
against. -/
def innerSq : ℚ := inner_dome_radius ^ 2

/-- Squared outer radius. -/
def outerSq : ℚ := outer_dome_radius ^ 2

/-- Position after one Euler step: self.pos += self.vel * dt. -/
def stepPos (pos vel : Vec3) (dt : ℚ) : Vec3 := vadd pos (smul dt vel)

/-- Projectile state of newcholaworkingalldirectionsfastcsv.py (class
Projectile).  prev_distance_sq is the squared form of self.prev_distance. -/
structure Projectile where
  pos : Vec3
  vel : Vec3
  active : Bool
  trail : List Vec3
  prev_distance_sq : ℚ
  marker_created : Bool
deriving DecidableEq

/-- Projectile.__init__ of newcholaworkingalldirectionsfastcsv.py:
pos, vel stored, active = True, trail = [tuple(pos)],
prev_distance = np.linalg.norm(pos), marker_created = False. -/
def Projectile.init (pos vel : Vec3) : Projectile :=
  { pos := pos
    vel := vel
    active := true
    trail := [pos]
    prev_distance_sq := normSq pos
    marker_created := false }

/-- Events one call of Projectile.update appends to the module-level lists
outer_entry_points, inner_entry_points and impact_markers. -/
structure UpdateEvents where
  outerEntry : Option Vec3
  innerEntry : Option Vec3
  impact : Option (Vec3 × ℚ)
deriving DecidableEq

/-- Projectile.update of newcholaworkingalldirectionsfastcsv.py.  `rnd` is the
value random.uniform(0.3, 1.0) would return, consumed only when the impact
marker is created.  The appends to the three global lists are returned as
events. -/
def Projectile.update (p : Projectile) (dt : ℚ) (rnd : ℚ) :
    Projectile × UpdateEvents :=
  let pos := vadd p.pos (smul dt p.vel)
  let trail := p.trail ++ [pos]
  let current_distance_sq := normSq pos
  let outerEv : Option Vec3 :=
    if outerSq < p.prev_distance_sq ∧ current_distance_sq ≤ outerSq then
      some pos
    else none
  let innerEv : Option Vec3 :=
    if innerSq < p.prev_distance_sq ∧ current_distance_sq ≤ innerSq then
      some pos
    else none
  let impactEv : Option (Vec3 × ℚ) :=
    if p.marker_created = false ∧ pos.y ≤ 0 ∧ horizNormSq pos ≤ innerSq then
      some (pos, rnd)
    else none
  let marker_created := p.marker_created || impactEv.isSome
  let active := if pos.y ≤ 0 then false else p.active
  ({ pos := pos
     vel := p.vel
     active := active
     trail := trail
     prev_distance_sq := current_distance_sq
     marker_created := marker_created },
   { outerEntry := outerEv
     innerEntry := innerEv
     impact := impactEv })

/-- Repeated calls of Projectile.update; each list element supplies the dt of
that tick and the oracle value for the random draw. -/
def runUpdates (p : Projectile) : List (ℚ × ℚ) → Projectile × List UpdateEvents
  | [] => (p, [])
  | (dt, r) :: rest =>
    let s := p.update dt r
    let t := runUpdates s.1 rest
    (t.1, s.2 :: t.2)

/-- Positions appended to outer_entry_points during a run, in order. -/
def outerEvents (evs : List UpdateEvents) : List Vec3 :=
  evs.filterMap (fun e => e.outerEntry)

/-- Positions appended to inner_entry_points during a run, in order. -/
def innerEvents (evs : List UpdateEvents) : List Vec3 :=
  evs.filterMap (fun e => e.innerEntry)

/-- Markers appended to impact_markers during a run, in order. -/
def impactEvents (evs : List UpdateEvents) : List (Vec3 × ℚ) :=
  evs.filterMap (fun e => e.impact)

/-- Trajectory of positions visited by repeated Euler steps with a constant
velocity, one entry per tick (the spawn position is not included). -/
def posPath (pos vel : Vec3) : List ℚ → List Vec3
  | [] => []
  | dt :: rest =>
    let q := stepPos pos vel dt
    q :: posPath q vel rest

/-- Dome center of newcholaworkingcodetrajectoryredalert.py:
np.array([0, inner_dome_radius/2, 0]). -/
def centerR : Vec3 := ⟨0, inner_dome_radius / 2, 0⟩

/-- Projectile state of newcholaworkingcodetrajectoryredalert.py (the gravity
variant).  Its __init__ stores pos, vel, active = True, trail = [] (empty, in
contrast with the other variants) and
prev_dist = np.linalg.norm(pos - center); prev_dist_sq is the squared form. -/
structure ProjectileR where
  pos : Vec3
  vel : Vec3
  active : Bool
  trail : List Vec3
  prev_dist_sq : ℚ
deriving DecidableEq

/-- Projectile.__init__ of newcholaworkingcodetrajectoryredalert.py. -/
def ProjectileR.init (pos vel : Vec3) : ProjectileR :=
  { pos := pos
    vel := vel
    active := true
    trail := []
    prev_dist_sq := normSq (vsub pos centerR) }

/-- Events one call of the gravity variant's Projectile.update appends to the
module-level lists outer_hits, inner_hits and red_trail. -/
structure UpdateEventsR where
  outerHit : Option Vec3
  innerHit : Option Vec3
  redTrail : Option Vec3
deriving DecidableEq

/-- Projectile.update of newcholaworkingcodetrajectoryredalert.py:
vel[1] -= 9.8*dt, pos += vel*dt, trail append, crossing checks against the
offset center, red-trail point while inside the inner dome, and deactivation
when pos[1] < 0 or pos[1] > inner_dome_radius * 2. -/
def ProjectileR.update (p : ProjectileR) (dt : ℚ) :
    ProjectileR × UpdateEventsR :=
  let vel : Vec3 := ⟨p.vel.x, p.vel.y - (49 / 5) * dt, p.vel.z⟩
  let pos := vadd p.pos (smul dt vel)
  let trail := p.trail ++ [pos]
  let curr_dist_sq := normSq (vsub pos centerR)
  let outerHit : Option Vec3 :=
    if outerSq < p.prev_dist_sq ∧ curr_dist_sq ≤ outerSq then some pos
    else none
  let innerHit : Option Vec3 :=
    if innerSq < p.prev_dist_sq ∧ curr_dist_sq ≤ innerSq then some pos
    else none
  let redT : Option Vec3 :=
    if curr_dist_sq ≤ innerSq then some pos else none
  let active :=
    if pos.y < 0 ∨ inner_dome_radius * 2 < pos.y then false else p.active
  ({ pos := pos
     vel := vel
     active := active
     trail := trail
     prev_dist_sq := curr_dist_sq },
   { outerHit := outerHit
     innerHit := innerHit
     redTrail := redT })

/-- Repeated calls of the gravity variant's update (one dt per tick). -/
def runUpdatesR (p : ProjectileR) : List ℚ → ProjectileR × List UpdateEventsR
  | [] => (p, [])
  | dt :: rest =>
    let s := p.update dt
    let t := runUpdatesR s.1 rest
    (t.1, s.2 :: t.2)

/-- Zone colors returned by get_zone_color. -/
inductive Color where
  | green
  | yellow
  | red
deriving DecidableEq

/-- get_zone_color of newcholaworkingalldirectionsfastcsv.py (identical in
newcholaworkingalldirectionsnew.py): green outside the outer dome, yellow in
between, red inside the inner dome. -/
def get_zone_color (pos : Vec3) : Color :=
  if outerSq < normSq pos then Color.green
  else if innerSq < normSq pos then Color.yellow
  else Color.red

/-- Whole per-frame simulation state of newcholaworkingalldirectionsfastcsv.py:
the working set and the module-level marker lists and spawn timer. -/
structure EngineState where
  projectiles : List Projectile
  outer_entry_points : List Vec3
  inner_entry_points : List Vec3
  impact_markers : List (Vec3 × ℚ)
  spawn_timer : ℚ
deriving DecidableEq

/-- Update-and-remove loop of the main loop (newcholaworkingalldirectionsfastcsv.py):
for proj in projectiles[:]: if proj.active: proj.update(dt) else: remove.
`rnd k` is the oracle value handed to the k-th updated projectile of the
cycle; the counter advances only on updated (active) entries. -/
def engineRun (dt : ℚ) (rnd : Nat → ℚ) :
    Nat → List Projectile → List Projectile × List UpdateEvents
  | _, [] => ([], [])
  | k, p :: ps =>
    if p.active then
      ((p.update dt (rnd k)).1 :: (engineRun dt rnd (k + 1) ps).1,
       (p.update dt (rnd k)).2 :: (engineRun dt rnd (k + 1) ps).2)
    else
      engineRun dt rnd k ps

/-- Spawn-timer step shared by the multi-projectile main loops:
spawn_timer += dt; if spawn_timer > interval: spawn once; spawn_timer = 0.
Returns the new timer value and whether a spawn fired. -/
def schedStep (interval timer dt : ℚ) : ℚ × Bool :=
  let t := timer + dt
  if interval < t then (0, true) else (t, false)

/-- One frame of the main loop of newcholaworkingalldirectionsfastcsv.py
(interval 0.2 s): advance/remove the working set, append the emitted markers
to the global lists, then run the spawn timer and append at most one freshly
spawned projectile.  `spawnP` stands for the (randomized) result of
spawn_projectile(). -/
def engineCycle (dt : ℚ) (rnd : Nat → ℚ) (spawnP : Projectile)
    (st : EngineState) : EngineState :=
  let r := engineRun dt rnd 0 st.projectiles
  let s := schedStep (1 / 5) st.spawn_timer dt
  { projectiles := if s.2 then r.1 ++ [spawnP] else r.1
    outer_entry_points := st.outer_entry_points ++ outerEvents r.2
    inner_entry_points := st.inner_entry_points ++ innerEvents r.2
    impact_markers := st.impact_markers ++ impactEvents r.2
    spawn_timer := s.1 }

/-- Iterated spawn timer: starting from timer value `t` at 1-based frame
index `i`, feed the timer one dt per frame (one list element per frame) and
collect the indices of the frames on which a spawn fired, together with the
final timer value. -/
def schedTrace (interval : ℚ) : ℚ → Nat → List ℚ → ℚ × List Nat
  | t, _, [] => (t, [])
  | t, i, dt :: rest =>
    let s := schedStep interval t dt
    let r := schedTrace interval s.1 (i + 1) rest
    (r.1, if s.2 then i :: r.2 else r.2)

/-- Error condition demanded by the specification for a zero-length aim
direction. -/
inductive SpawnError where
  | invalidSpawnGeometry
deriving DecidableEq

/-- Aimed-at-center velocity computation of spawn_projectile in
newcholaworkingcodetrajectoryredalert.py: direction = center - pos;
norm = np.linalg.norm(direction); if norm == 0: norm = 1;
vel = direction / norm * 30; vel[1] = 40.  The Euclidean length of the
direction is irrational in general, so it is supplied as the argument
`norm`; at the degenerate input pos = centerR it is exactly 0. -/
def spawn_aim_redalert (pos : Vec3) (norm : ℚ) : Vec3 :=
  let direction := vsub centerR pos
  let n := if norm = 0 then 1 else norm
  let vel := smul (30 / n) direction
  ⟨vel.x, 40, vel.z⟩

/-- Modelled from the spec: section 7 demands that direction normalization
with a spawn position equal to the target center "must fail fast (signal an
InvalidSpawnGeometry condition)" instead of producing a projectile.  No file
of the repository implements such a condition; this definition follows the
spec's words for comparison with spawn_aim_redalert. -/
def spawn_aim_spec (pos : Vec3) (norm : ℚ) : Except SpawnError Vec3 :=
  let direction := vsub centerR pos
  if normSq direction = 0 then Except.error SpawnError.invalidSpawnGeometry
  else
    let vel := smul (30 / norm) direction
    Except.ok ⟨vel.x, 40, vel.z⟩

/- ------------------------------------------------------------------ -/
/- Equation lemmas unfolding the embedded operations.                  -/
/- ------------------------------------------------------------------ -/

lemma update_pos (p : Projectile) (dt rnd : ℚ) :
    (p.update dt rnd).1.pos = stepPos p.pos p.vel dt := rfl

lemma update_vel (p : Projectile) (dt rnd : ℚ) :
    (p.update dt rnd).1.vel = p.vel := rfl

lemma update_prev (p : Projectile) (dt rnd : ℚ) :
    (p.update dt rnd).1.prev_distance_sq = normSq (stepPos p.pos p.vel dt) :=
  rfl

lemma update_trail (p : Projectile) (dt rnd : ℚ) :
    (p.update dt rnd).1.trail = p.trail ++ [stepPos p.pos p.vel dt] := rfl

lemma update_active (p : Projectile) (dt rnd : ℚ) :
    (p.update dt rnd).1.active =
      if (stepPos p.pos p.vel dt).y ≤ 0 then false else p.active := rfl

lemma update_marker (p : Projectile) (dt rnd : ℚ) :
    (p.update dt rnd).1.marker_created =
      (p.marker_created || (p.update dt rnd).2.impact.isSome) := rfl

lemma update_outerEntry (p : Projectile) (dt rnd : ℚ) :
    (p.update dt rnd).2.outerEntry =
      if outerSq < p.prev_distance_sq ∧
          normSq (stepPos p.pos p.vel dt) ≤ outerSq then
        some (stepPos p.pos p.vel dt)
      else none := rfl

lemma update_innerEntry (p : Projectile) (dt rnd : ℚ) :
    (p.update dt rnd).2.innerEntry =
      if innerSq < p.prev_distance_sq ∧
          normSq (stepPos p.pos p.vel dt) ≤ innerSq then
        some (stepPos p.pos p.vel dt)
      else none := rfl

lemma update_impact (p : Projectile) (dt rnd : ℚ) :
    (p.update dt rnd).2.impact =
      if p.marker_created = false ∧ (stepPos p.pos p.vel dt).y ≤ 0 ∧
          horizNormSq (stepPos p.pos p.vel dt) ≤ innerSq then
        some (stepPos p.pos p.vel dt, rnd)
      else none := rfl

lemma runUpdates_nil (p : Projectile) : runUpdates p [] = (p, []) := rfl

lemma runUpdates_cons (p : Projectile) (dt r : ℚ) (rest : List (ℚ × ℚ)) :
    runUpdates p ((dt, r) :: rest) =
      ((runUpdates (p.update dt r).1 rest).1,
       (p.update dt r).2 :: (runUpdates (p.update dt r).1 rest).2) := rfl

lemma posPath_nil (pos vel : Vec3) : posPath pos vel [] = [] := rfl

lemma posPath_cons (pos vel : Vec3) (dt : ℚ) (rest : List ℚ) :
    posPath pos vel (dt :: rest) =
      stepPos pos vel dt :: posPath (stepPos pos vel dt) vel rest := rfl

lemma outerEvents_nil : outerEvents [] = [] := rfl

lemma outerEvents_cons (e : UpdateEvents) (l : List UpdateEvents) :
    outerEvents (e :: l) = e.outerEntry.toList ++ outerEvents l := by
  cases h : e.outerEntry <;>
    simp [outerEvents, List.filterMap_cons, h, Option.toList]

lemma innerEvents_cons (e : UpdateEvents) (l : List UpdateEvents) :
    innerEvents (e :: l) = e.innerEntry.toList ++ innerEvents l := by
  cases h : e.innerEntry <;>
    simp [innerEvents, List.filterMap_cons, h, Option.toList]

lemma impactEvents_nil : impactEvents [] = [] := rfl

lemma impactEvents_cons (e : UpdateEvents) (l : List UpdateEvents) :
    impactEvents (e :: l) = e.impact.toList ++ impactEvents l := by
  cases h : e.impact <;>
    simp [impactEvents, List.filterMap_cons, h, Option.toList]

lemma updateR_pos (p : ProjectileR) (dt : ℚ) :
    (p.update dt).1.pos =
      vadd p.pos (smul dt ⟨p.vel.x, p.vel.y - (49 / 5) * dt, p.vel.z⟩) := rfl

lemma updateR_trail (p : ProjectileR) (dt : ℚ) :
    (p.update dt).1.trail = p.trail ++ [(p.update dt).1.pos] := rfl

lemma updateR_active (p : ProjectileR) (dt : ℚ) :
    (p.update dt).1.active =
      if (p.update dt).1.pos.y < 0 ∨
          inner_dome_radius * 2 < (p.update dt).1.pos.y then false
      else p.active := rfl

lemma runUpdatesR_nil (p : ProjectileR) : runUpdatesR p [] = (p, []) := rfl

lemma runUpdatesR_cons (p : ProjectileR) (dt : ℚ) (rest : List ℚ) :
    runUpdatesR p (dt :: rest) =
      ((runUpdatesR (p.update dt).1 rest).1,
       (p.update dt).2 :: (runUpdatesR (p.update dt).1 rest).2) := rfl

/- ------------------------------------------------------------------ -/
/- Crossing detection (C1, C7, C10).                                   -/
/- ------------------------------------------------------------------ -/

lemma chain_le_head {c : ℚ} {l : List ℚ}
    (h : List.Chain' (fun a b => b ≤ a) (c :: l)) : ∀ d ∈ l, d ≤ c := by
  induction l generalizing c with
  | nil => simp
  | cons e l ih =>
    rw [List.chain'_cons] at h
    intro d hd
    rcases List.mem_cons.mp hd with rfl | hd
    · exact h.1
    · exact le_trans (ih h.2 d hd) h.1

/-- While the previous distance is inside the outer radius and the whole
remaining path stays inside it, no outer-entry marker is appended. -/
lemma outerEvents_of_inside (p : Projectile) (l : List (ℚ × ℚ))
    (hprev : p.prev_distance_sq ≤ outerSq)
    (hpath : ∀ q ∈ posPath p.pos p.vel (l.map Prod.fst), normSq q ≤ outerSq) :
    outerEvents (runUpdates p l).2 = [] := by
  induction l generalizing p with
  | nil => rfl
  | cons a rest ih =>
    obtain ⟨dt, r⟩ := a
    have hq1 : normSq (stepPos p.pos p.vel dt) ≤ outerSq := by
      apply hpath
      simp [posPath_cons]
    have hn : (p.update dt r).2.outerEntry = none := by
      rw [update_outerEntry, if_neg]
      rintro ⟨h1, -⟩
      exact absurd hprev (not_le.mpr h1)
    rw [runUpdates_cons, outerEvents_cons, hn]
    simp only [Option.toList_none, List.nil_append]
    apply ih
    · rw [update_prev]
      exact hq1
    · intro q hq
      apply hpath
      simp only [List.map_cons, posPath_cons]
      simp only [update_pos, update_vel] at hq
      exact List.mem_cons_of_mem _ hq

/-- Along a monotonically inward run starting outside the outer radius, the
outer-entry markers appended are exactly the first path position whose
distance has dropped to or below the outer radius. -/
lemma outerEvents_pass (p : Projectile) (l : List (ℚ × ℚ))
    (hstart : outerSq < p.prev_distance_sq)
    (hchain : List.Chain' (fun a b => b ≤ a)
      (p.prev_distance_sq ::
        (posPath p.pos p.vel (l.map Prod.fst)).map normSq)) :
    outerEvents (runUpdates p l).2 =
      ((posPath p.pos p.vel (l.map Prod.fst)).find?
        (fun q => decide (normSq q ≤ outerSq))).toList := by
  induction l generalizing p with
  | nil => rfl
  | cons a rest ih =>
    obtain ⟨dt, r⟩ := a
    simp only [List.map_cons, posPath_cons] at hchain ⊢
    rw [List.chain'_cons] at hchain
    obtain ⟨h01, hchain'⟩ := hchain
    by_cases hd : normSq (stepPos p.pos p.vel dt) ≤ outerSq
    · have he : (p.update dt r).2.outerEntry =
          some (stepPos p.pos p.vel dt) := by
        rw [update_outerEntry, if_pos ⟨hstart, hd⟩]
      rw [runUpdates_cons, outerEvents_cons, he,
        List.find?_cons_of_pos _ (by simpa using hd)]
      have hrest : outerEvents (runUpdates (p.update dt r).1 rest).2 = [] := by
        apply outerEvents_of_inside
        · rw [update_prev]
          exact hd
        · intro q hq
          simp only [update_pos, update_vel] at hq
          exact le_trans
            (chain_le_head hchain' (normSq q) (List.mem_map_of_mem normSq hq))
            hd
      rw [hrest]
      simp
    · have he : (p.update dt r).2.outerEntry = none := by
        rw [update_outerEntry, if_neg]
        rintro ⟨-, h2⟩
        exact hd h2
      rw [runUpdates_cons, outerEvents_cons, he,
        List.find?_cons_of_neg _ (by simpa using hd)]
      simp only [Option.toList_none, List.nil_append]
      exact ih (p.update dt r).1 (lt_of_not_le hd) hchain'

/-- C1: a position is appended to outer_entry_points by Projectile.update
exactly when the previous-tick distance was strictly greater than the outer
radius and the current distance is at most the outer radius (and analogously
for inner_entry_points with the inner radius); consequently, along a
monotonically inward run that starts outside the outer radius, the appended
outer entries are exactly the first position of the run whose distance is at
or below the outer radius — one entry per pass, at the first such tick. -/
theorem outer_crossing_rule (p : Projectile) (l : List (ℚ × ℚ))
    (hstart : outerSq < p.prev_distance_sq)
    (hchain : List.Chain' (fun a b => b ≤ a)
      (p.prev_distance_sq ::
        (posPath p.pos p.vel (l.map Prod.fst)).map normSq)) :
    (∀ (q : Projectile) (dt r : ℚ),
        ((q.update dt r).2.outerEntry = some (stepPos q.pos q.vel dt) ↔
          outerSq < q.prev_distance_sq ∧
            normSq (stepPos q.pos q.vel dt) ≤ outerSq)
      ∧ ((q.update dt r).2.innerEntry = some (stepPos q.pos q.vel dt) ↔
          innerSq < q.prev_distance_sq ∧
            normSq (stepPos q.pos q.vel dt) ≤ innerSq))
    ∧ outerEvents (runUpdates p l).2 =
        ((posPath p.pos p.vel (l.map Prod.fst)).find?
          (fun q => decide (normSq q ≤ outerSq))).toList := by
  refine ⟨fun q dt r => ⟨?_, ?_⟩, outerEvents_pass p l hstart hchain⟩
  · rw [update_outerEntry]
    by_cases hc : outerSq < q.prev_distance_sq ∧
        normSq (stepPos q.pos q.vel dt) ≤ outerSq
    · simp [hc]
    · simp [hc]
  · rw [update_innerEntry]
    by_cases hc : innerSq < q.prev_distance_sq ∧
        normSq (stepPos q.pos q.vel dt) ≤ innerSq
    · simp [hc]
    · simp [hc]

/-- Witness for outer_crossing_rule: a projectile falling straight down from
distance 400 toward the center in steps of 50 units appends exactly one
outer-entry marker, at the first tick where its distance is 300 ≤ 320. -/
theorem outer_crossing_rule_witness :
    outerEvents (runUpdates (Projectile.init ⟨0, 400, 0⟩ ⟨0, -50, 0⟩)
      [(1, 1), (1, 1), (1, 1), (1, 1), (1, 1), (1, 1)]).2 = [⟨0, 300, 0⟩] := by
  have h := (outer_crossing_rule (Projectile.init ⟨0, 400, 0⟩ ⟨0, -50, 0⟩)
    [(1, 1), (1, 1), (1, 1), (1, 1), (1, 1), (1, 1)]
    (by norm_num [Projectile.init, normSq, outerSq, outer_dome_radius])
    (by
      norm_num [Projectile.init, posPath_cons, posPath_nil, stepPos, vadd,
        smul, normSq, List.chain'_cons])).2
  rw [h]
  norm_num [Projectile.init, posPath_cons, posPath_nil, stepPos, vadd, smul,
    normSq, outerSq, outer_dome_radius, Vec3.mk.injEq]

/-- C7: a spawned projectile's previous radial distance is initialized from
its starting position, so a projectile spawned at or inside the outer radius
appends no outer-entry marker over any run whose positions never re-exceed
the outer radius (a crossing needs a strictly greater previous distance). -/
theorem spawn_no_spurious_crossing (pos vel : Vec3) (l : List (ℚ × ℚ))
    (hin : normSq pos ≤ outerSq)
    (hstay : ∀ q ∈ posPath pos vel (l.map Prod.fst), normSq q ≤ outerSq) :
    (Projectile.init pos vel).prev_distance_sq = normSq pos
    ∧ outerEvents (runUpdates (Projectile.init pos vel) l).2 = [] := by
  refine ⟨rfl, ?_⟩
  exact outerEvents_of_inside (Projectile.init pos vel) l hin hstay

/-- Witness for spawn_no_spurious_crossing: spawned at distance 200 and
moving inward, a projectile appends no outer-entry marker. -/
theorem spawn_no_spurious_crossing_witness :
    outerEvents (runUpdates (Projectile.init ⟨0, 200, 0⟩ ⟨0, -50, 0⟩)
      [(1, 1), (1, 1), (1, 1)]).2 = [] :=
  (spawn_no_spurious_crossing ⟨0, 200, 0⟩ ⟨0, -50, 0⟩ [(1, 1), (1, 1), (1, 1)]
    (by norm_num [normSq, outerSq, outer_dome_radius])
    (by norm_num [posPath_cons, posPath_nil, stepPos, vadd, smul, normSq,
      outerSq, outer_dome_radius, List.forall_mem_cons])).2

/-- C10: a single update that takes a projectile from a previous distance
above the outer radius directly to a current distance at or below the inner
radius appends the same new position to both outer_entry_points and
inner_entry_points: both crossing predicates fire in that tick against the
same previous-distance baseline. -/
theorem simultaneous_crossing (p : Projectile) (dt r : ℚ)
    (houter : outerSq < p.prev_distance_sq)
    (hinner : normSq (stepPos p.pos p.vel dt) ≤ innerSq) :
    (p.update dt r).2.outerEntry = some (stepPos p.pos p.vel dt)
    ∧ (p.update dt r).2.innerEntry = some (stepPos p.pos p.vel dt) := by
  have hio : innerSq ≤ outerSq := by
    norm_num [innerSq, outerSq, inner_dome_radius, outer_dome_radius]
  constructor
  · rw [update_outerEntry, if_pos ⟨houter, le_trans hinner hio⟩]
  · rw [update_innerEntry, if_pos ⟨lt_of_le_of_lt hio houter, hinner⟩]

/-- Witness for simultaneous_crossing: one tick from distance 400 to distance
70 appends the position (0, 70, 0) to both entry lists. -/
theorem simultaneous_crossing_witness :
    ((Projectile.init ⟨0, 400, 0⟩ ⟨0, -330, 0⟩).update 1 1).2.outerEntry =
        some (stepPos ⟨0, 400, 0⟩ ⟨0, -330, 0⟩ 1)
    ∧ ((Projectile.init ⟨0, 400, 0⟩ ⟨0, -330, 0⟩).update 1 1).2.innerEntry =
        some (stepPos ⟨0, 400, 0⟩ ⟨0, -330, 0⟩ 1) :=
  simultaneous_crossing (Projectile.init ⟨0, 400, 0⟩ ⟨0, -330, 0⟩) 1 1
    (by norm_num [Projectile.init, normSq, outerSq, outer_dome_radius])
    (by norm_num [Projectile.init, stepPos, vadd, smul, normSq, innerSq,
      inner_dome_radius])

/-- C8: zone classification is a pure function of the position: green exactly
when the distance exceeds the outer radius, yellow exactly when the distance
is above the inner radius but at most the outer radius, red exactly when the
distance is at most the inner radius. -/
theorem zone_classification (pos : Vec3) :
    (get_zone_color pos = Color.green ↔ outerSq < normSq pos)
    ∧ (get_zone_color pos = Color.yellow ↔
        innerSq < normSq pos ∧ normSq pos ≤ outerSq)
    ∧ (get_zone_color pos = Color.red ↔ normSq pos ≤ innerSq) := by
  have hio : innerSq ≤ outerSq := by
    norm_num [innerSq, outerSq, inner_dome_radius, outer_dome_radius]
  by_cases h1 : outerSq < normSq pos
  · refine ⟨?_, ?_, ?_⟩
    · simp [get_zone_color, h1]
    · simp only [get_zone_color, if_pos h1]
      exact ⟨fun h => Color.noConfusion h,
        fun h => absurd h1 (not_lt.mpr h.2)⟩
    · simp only [get_zone_color, if_pos h1]
      exact ⟨fun h => Color.noConfusion h,
        fun h => absurd h1 (not_lt.mpr (le_trans h hio))⟩
  · by_cases h2 : innerSq < normSq pos
    · refine ⟨?_, ?_, ?_⟩
      · simp only [get_zone_color, if_neg h1, if_pos h2]
        exact ⟨fun h => Color.noConfusion h, fun h => absurd h h1⟩
      · simp only [get_zone_color, if_neg h1, if_pos h2]
        exact ⟨fun _ => ⟨h2, not_lt.mp h1⟩, fun _ => trivial⟩
      · simp only [get_zone_color, if_neg h1, if_pos h2]
        exact ⟨fun h => Color.noConfusion h,
          fun h => absurd h2 (not_lt.mpr h)⟩
    · refine ⟨?_, ?_, ?_⟩
      · simp only [get_zone_color, if_neg h1, if_neg h2]
        exact ⟨fun h => Color.noConfusion h, fun h => absurd h h1⟩
      · simp only [get_zone_color, if_neg h1, if_neg h2]
        exact ⟨fun h => Color.noConfusion h, fun h => absurd h.1 h2⟩
      · simp only [get_zone_color, if_neg h1, if_neg h2]
        exact ⟨fun _ => not_lt.mp h2, fun _ => trivial⟩

/- ------------------------------------------------------------------ -/
/- Trail bookkeeping (C2) and deactivation (C3).                       -/
/- ------------------------------------------------------------------ -/

lemma posPath_length (pos vel : Vec3) (l : List ℚ) :
    (posPath pos vel l).length = l.length := by
  induction l generalizing pos with
  | nil => rfl
  | cons dt rest ih => simp [posPath_cons, ih]

lemma run_trail (p : Projectile) (l : List (ℚ × ℚ)) :
    (runUpdates p l).1.trail =
      p.trail ++ posPath p.pos p.vel (l.map Prod.fst) := by
  induction l generalizing p with
  | nil => simp [runUpdates_nil, posPath_nil]
  | cons a rest ih =>
    obtain ⟨dt, r⟩ := a
    rw [runUpdates_cons, ih]
    simp only [update_trail, update_pos, update_vel, List.map_cons,
      posPath_cons]
    rw [List.append_assoc, List.singleton_append]

lemma run_pos (p : Projectile) (l : List (ℚ × ℚ)) :
    (runUpdates p l).1.pos =
      (posPath p.pos p.vel (l.map Prod.fst)).getLastD p.pos := by
  induction l generalizing p with
  | nil => rfl
  | cons a rest ih =>
    obtain ⟨dt, r⟩ := a
    rw [runUpdates_cons, ih]
    simp only [update_pos, update_vel, List.map_cons, posPath_cons]
    rw [List.getLastD_cons]

lemma getLast?_cons_eq_getLastD {α : Type} (a : α) (l : List α) :
    (a :: l).getLast? = some (l.getLastD a) := by
  induction l generalizing a with
  | nil => rfl
  | cons b l ih => rw [List.getLast?_cons_cons, ih, List.getLastD_cons]

lemma runR_trail_len (p : ProjectileR) (l : List ℚ) :
    (runUpdatesR p l).1.trail.length = p.trail.length + l.length := by
  induction l generalizing p with
  | nil => simp [runUpdatesR_nil]
  | cons dt rest ih =>
    rw [runUpdatesR_cons, ih, updateR_trail]
    simp [List.length_append]
    omega

lemma runR_last_inv (p : ProjectileR) (l : List ℚ)
    (h : p.trail.getLast? = some p.pos) :
    (runUpdatesR p l).1.trail.getLast? = some (runUpdatesR p l).1.pos := by
  induction l generalizing p with
  | nil => exact h
  | cons dt rest ih =>
    rw [runUpdatesR_cons]
    apply ih
    rw [updateR_trail, List.getLast?_concat]

lemma runR_last_of_ne (p : ProjectileR) (l : List ℚ) (h : l ≠ []) :
    (runUpdatesR p l).1.trail.getLast? = some (runUpdatesR p l).1.pos := by
  cases l with
  | nil => exact absurd rfl h
  | cons dt rest =>
    rw [runUpdatesR_cons]
    apply runR_last_inv
    rw [updateR_trail, List.getLast?_concat]

/-- C2 counterexample: in the gravity variant the trail starts empty, so the
spawn position is not trail[0], and after exactly one update the trail has
length 1, not 1 + 1; its single element is the post-update position, so the
spawn position never appears in the trail at all. -/
theorem trail_spawn_cex :
    (ProjectileR.init ⟨0, 100, 0⟩ ⟨0, 0, 0⟩).trail = []
    ∧ ((ProjectileR.init ⟨0, 100, 0⟩ ⟨0, 0, 0⟩).update 1).1.trail.length ≠
        1 + 1
    ∧ (⟨0, 100, 0⟩ : Vec3) ∉
        ((ProjectileR.init ⟨0, 100, 0⟩ ⟨0, 0, 0⟩).update 1).1.trail := by
  refine ⟨rfl, ?_, ?_⟩
  · norm_num [ProjectileR.init, ProjectileR.update]
  · norm_num [ProjectileR.init, ProjectileR.update, vadd, smul,
      Vec3.mk.injEq]

/-- C2 amended: in the variants that initialize the trail with the spawn
position (all but the gravity variant), after k updates the trail has length
k + 1, starts with the spawn position and ends with the current position; in
the gravity variant the trail starts empty, so after k updates it has length
k, and it ends with the current position once at least one update has run. -/
theorem trail_invariant (pos vel : Vec3) (l : List (ℚ × ℚ)) (ds : List ℚ) :
    (runUpdates (Projectile.init pos vel) l).1.trail.length = l.length + 1
    ∧ (runUpdates (Projectile.init pos vel) l).1.trail.head? = some pos
    ∧ (runUpdates (Projectile.init pos vel) l).1.trail.getLast? =
        some (runUpdates (Projectile.init pos vel) l).1.pos
    ∧ (runUpdatesR (ProjectileR.init pos vel) ds).1.trail.length = ds.length
    ∧ (ds ≠ [] →
        (runUpdatesR (ProjectileR.init pos vel) ds).1.trail.getLast? =
          some (runUpdatesR (ProjectileR.init pos vel) ds).1.pos) := by
  refine ⟨?_, ?_, ?_, ?_, fun h => runR_last_of_ne _ _ h⟩
  · rw [run_trail]
    simp [Projectile.init, posPath_length]
  · rw [run_trail]
    show (pos :: _).head? = some pos
    rfl
  · rw [run_trail, run_pos]
    show (pos :: posPath pos vel (l.map Prod.fst)).getLast? = _
    rw [getLast?_cons_eq_getLastD]
    rfl
  · rw [runR_trail_len]
    simp [ProjectileR.init]

/-- Witness for trail_invariant at a concrete spawn and a one-tick run. -/
theorem trail_invariant_witness :
    (runUpdatesR (ProjectileR.init ⟨0, 100, 0⟩ ⟨0, 0, 0⟩) [1]).1.trail.getLast?
      = some (runUpdatesR (ProjectileR.init ⟨0, 100, 0⟩ ⟨0, 0, 0⟩) [1]).1.pos :=
  (trail_invariant ⟨0, 100, 0⟩ ⟨0, 0, 0⟩ [] [1]).2.2.2.2 (by simp)

/-- C3 counterexample: in the gravity variant a projectile whose
post-integration height is exactly 0 stays active: dropped from height 9.8
with zero initial velocity, one update with dt = 1 puts it at y = 0 ≤ 0, yet
the active flag remains true (the code deactivates only for y < 0). -/
theorem ground_deactivation_cex :
    ((ProjectileR.init ⟨0, 49/5, 0⟩ ⟨0, 0, 0⟩).update 1).1.pos.y ≤ 0
    ∧ ((ProjectileR.init ⟨0, 49/5, 0⟩ ⟨0, 0, 0⟩).update 1).1.active = true := by
  constructor
  · norm_num [ProjectileR.init, ProjectileR.update, vadd, smul]
  · norm_num [ProjectileR.init, ProjectileR.update, vadd, smul,
      inner_dome_radius]

/-- C3 amended: an active projectile of the non-gravity variants is
deactivated by an update exactly when its post-integration height is at most
0; an active projectile of the gravity variant is deactivated exactly when
its post-integration height is strictly below 0 or above the upper bound
2 · inner_dome_radius. -/
theorem deactivation_rule (p : Projectile) (q : ProjectileR) (dt dt' r : ℚ)
    (hp : p.active = true) (hq : q.active = true) :
    ((p.update dt r).1.active = false ↔ (p.update dt r).1.pos.y ≤ 0)
    ∧ ((q.update dt').1.active = false ↔
        ((q.update dt').1.pos.y < 0 ∨
          inner_dome_radius * 2 < (q.update dt').1.pos.y)) := by
  constructor
  · rw [update_active, update_pos, hp]
    by_cases h : (stepPos p.pos p.vel dt).y ≤ 0
    · simp [h]
    · simp [h]
  · rw [updateR_active, hq]
    by_cases h : (q.update dt').1.pos.y < 0 ∨
        inner_dome_radius * 2 < (q.update dt').1.pos.y
    · simp [h]
    · simp [h]

/-- Witness for deactivation_rule at a concrete active projectile of each
variant. -/
theorem deactivation_rule_witness :
    (((Projectile.init ⟨0, 1, 0⟩ ⟨0, -2, 0⟩).update 1 1).1.active = false ↔
      ((Projectile.init ⟨0, 1, 0⟩ ⟨0, -2, 0⟩).update 1 1).1.pos.y ≤ 0)
    ∧ (((ProjectileR.init ⟨0, 1, 0⟩ ⟨0, -2, 0⟩).update 1).1.active = false ↔
        (((ProjectileR.init ⟨0, 1, 0⟩ ⟨0, -2, 0⟩).update 1).1.pos.y < 0 ∨
          inner_dome_radius * 2 <
            ((ProjectileR.init ⟨0, 1, 0⟩ ⟨0, -2, 0⟩).update 1).1.pos.y)) :=
  deactivation_rule (Projectile.init ⟨0, 1, 0⟩ ⟨0, -2, 0⟩)
    (ProjectileR.init ⟨0, 1, 0⟩ ⟨0, -2, 0⟩) 1 1 1 rfl rfl

/- ------------------------------------------------------------------ -/
/- Impact markers (C4).                                                -/
/- ------------------------------------------------------------------ -/

lemma impactEvents_of_marker (p : Projectile) (l : List (ℚ × ℚ))
    (h : p.marker_created = true) :
    impactEvents (runUpdates p l).2 = [] := by
  induction l generalizing p with
  | nil => rfl
  | cons a rest ih =>
    obtain ⟨dt, r⟩ := a
    have hn : (p.update dt r).2.impact = none := by
      rw [update_impact, if_neg]
      rintro ⟨h1, -⟩
      rw [h] at h1
      exact Bool.noConfusion h1
    rw [runUpdates_cons, impactEvents_cons, hn]
    simp only [Option.toList_none, List.nil_append]
    apply ih
    rw [update_marker, h]
    exact Bool.true_or _

lemma impactEvents_len (p : Projectile) (l : List (ℚ × ℚ)) :
    (impactEvents (runUpdates p l).2).length ≤ 1 := by
  induction l generalizing p with
  | nil => simp [runUpdates_nil, impactEvents_nil]
  | cons a rest ih =>
    obtain ⟨dt, r⟩ := a
    rw [runUpdates_cons, impactEvents_cons]
    cases hi : (p.update dt r).2.impact with
    | none =>
      simp only [Option.toList_none, List.nil_append]
      exact ih _
    | some m =>
      have hm : (p.update dt r).1.marker_created = true := by
        rw [update_marker, hi]
        simp
      rw [impactEvents_of_marker _ _ hm]
      simp

lemma impactEvents_mem (p : Projectile) (l : List (ℚ × ℚ)) :
    ∀ m ∈ impactEvents (runUpdates p l).2,
      m.1.y ≤ 0 ∧ horizNormSq m.1 ≤ innerSq ∧ m.2 ∈ l.map Prod.snd := by
  induction l generalizing p with
  | nil => simp [runUpdates_nil, impactEvents_nil]
  | cons a rest ih =>
    obtain ⟨dt, r⟩ := a
    rw [runUpdates_cons, impactEvents_cons]
    intro m hm
    rw [List.mem_append] at hm
    rcases hm with hm | hm
    · rw [update_impact] at hm
      by_cases hc : p.marker_created = false ∧ (stepPos p.pos p.vel dt).y ≤ 0
          ∧ horizNormSq (stepPos p.pos p.vel dt) ≤ innerSq
      · rw [if_pos hc] at hm
        simp only [Option.toList_some, List.mem_singleton] at hm
        subst hm
        exact ⟨hc.2.1, hc.2.2, by simp⟩
      · rw [if_neg hc] at hm
        simp at hm
    · obtain ⟨h1, h2, h3⟩ := ih _ m hm
      refine ⟨h1, h2, ?_⟩
      rw [List.map_cons]
      exact List.mem_cons_of_mem _ h3

/-- C4: over any run of updates a projectile creates at most one impact
marker — even while it lingers at or below ground level — each created marker
satisfies the creation guard (height at most 0 and horizontal distance within
the inner radius), its radius is the oracle value drawn at its creation tick
(hence lies in the configured range whenever the oracle's values do), and at
engine level the impact-marker list is only ever extended by appending, so a
recorded marker never changes. -/
theorem impact_marker_unique (p : Projectile) (l : List (ℚ × ℚ))
    (hr : ∀ v ∈ l.map Prod.snd, 3 / 10 ≤ v ∧ v ≤ 1) :
    (impactEvents (runUpdates p l).2).length ≤ 1
    ∧ (∀ m ∈ impactEvents (runUpdates p l).2,
        m.1.y ≤ 0 ∧ horizNormSq m.1 ≤ innerSq ∧ 3 / 10 ≤ m.2 ∧ m.2 ≤ 1)
    ∧ (∀ (dt : ℚ) (rnd : Nat → ℚ) (spawnP : Projectile) (st : EngineState),
        ∃ ms, (engineCycle dt rnd spawnP st).impact_markers =
          st.impact_markers ++ ms) := by
  refine ⟨impactEvents_len p l, ?_, ?_⟩
  · intro m hm
    obtain ⟨h1, h2, h3⟩ := impactEvents_mem p l m hm
    obtain ⟨h4, h5⟩ := hr m.2 h3
    exact ⟨h1, h2, h4, h5⟩
  · intro dt rnd spawnP st
    exact ⟨_, rfl⟩

/-- Witness for impact_marker_unique: a projectile that reaches the ground on
tick one and lingers there on tick two records at most one impact marker. -/
theorem impact_marker_unique_witness :
    (impactEvents (runUpdates (Projectile.init ⟨0, 100, 0⟩ ⟨0, -100, 0⟩)
      [(1, 1/2), (1, 1/2)]).2).length ≤ 1 :=
  (impact_marker_unique (Projectile.init ⟨0, 100, 0⟩ ⟨0, -100, 0⟩)
    [(1, 1/2), (1, 1/2)]
    (by norm_num [List.forall_mem_cons])).1

/- ------------------------------------------------------------------ -/
/- Engine cycle (C5) and spawn scheduler (C6).                         -/
/- ------------------------------------------------------------------ -/

lemma engineRun_nil (dt : ℚ) (rnd : Nat → ℚ) (k : Nat) :
    engineRun dt rnd k [] = ([], []) := rfl

lemma engineRun_cons (dt : ℚ) (rnd : Nat → ℚ) (k : Nat) (p : Projectile)
    (ps : List Projectile) :
    engineRun dt rnd k (p :: ps) =
      if p.active then
        ((p.update dt (rnd k)).1 :: (engineRun dt rnd (k + 1) ps).1,
         (p.update dt (rnd k)).2 :: (engineRun dt rnd (k + 1) ps).2)
      else engineRun dt rnd k ps := rfl

lemma engineRun_drop_inactive (dt : ℚ) (rnd : Nat → ℚ) (k : Nat)
    (p : Projectile) (hp : p.active = false) (as bs : List Projectile) :
    engineRun dt rnd k (as ++ p :: bs) = engineRun dt rnd k (as ++ bs) := by
  induction as generalizing k with
  | nil =>
    simp only [List.nil_append]
    rw [engineRun_cons, if_neg (by simp [hp])]
  | cons a as ih =>
    simp only [List.cons_append]
    rw [engineRun_cons, engineRun_cons]
    by_cases ha : a.active = true
    · rw [if_pos ha, if_pos ha, ih (k + 1)]
    · rw [if_neg ha, if_neg ha]
      exact ih k

/-- C5: an inactive projectile in the working set is dropped by the next
engine cycle without being updated: the cycle applied to a working set
containing it produces exactly the state it produces without it, so its
position and trail are never mutated again, it contributes no further markers
and it is never reinstated; meanwhile every marker list persists — the cycle
only ever appends to it. -/
theorem inactive_terminal (dt : ℚ) (rnd : Nat → ℚ) (spawnP p : Projectile)
    (as bs : List Projectile) (outs inns : List Vec3)
    (imps : List (Vec3 × ℚ)) (tmr : ℚ) (hp : p.active = false) :
    engineCycle dt rnd spawnP ⟨as ++ p :: bs, outs, inns, imps, tmr⟩ =
      engineCycle dt rnd spawnP ⟨as ++ bs, outs, inns, imps, tmr⟩
    ∧ (∃ xs, (engineCycle dt rnd spawnP
        ⟨as ++ p :: bs, outs, inns, imps, tmr⟩).outer_entry_points =
          outs ++ xs)
    ∧ (∃ ys, (engineCycle dt rnd spawnP
        ⟨as ++ p :: bs, outs, inns, imps, tmr⟩).inner_entry_points =
          inns ++ ys)
    ∧ (∃ zs, (engineCycle dt rnd spawnP
        ⟨as ++ p :: bs, outs, inns, imps, tmr⟩).impact_markers =
          imps ++ zs) := by
  refine ⟨?_, ⟨_, rfl⟩, ⟨_, rfl⟩, ⟨_, rfl⟩⟩
  have h := engineRun_drop_inactive dt rnd 0 p hp as bs
  simp only [engineCycle, h]

/-- Witness for inactive_terminal: a cycle on a working set holding only one
inactive projectile equals the cycle on the empty working set. -/
theorem inactive_terminal_witness :
    engineCycle 1 (fun _ => 1) (Projectile.init ⟨0, 340, 0⟩ ⟨0, -100, 0⟩)
        ⟨[⟨⟨0, 0, 0⟩, ⟨0, 0, 0⟩, false, [], 0, false⟩], [], [], [], 0⟩ =
      engineCycle 1 (fun _ => 1) (Projectile.init ⟨0, 340, 0⟩ ⟨0, -100, 0⟩)
        ⟨[], [], [], [], 0⟩ :=
  (inactive_terminal 1 (fun _ => 1) (Projectile.init ⟨0, 340, 0⟩ ⟨0, -100, 0⟩)
    ⟨⟨0, 0, 0⟩, ⟨0, 0, 0⟩, false, [], 0, false⟩ [] [] [] [] [] 0 rfl).1

lemma schedStep_eq (interval timer dt : ℚ) :
    schedStep interval timer dt =
      if interval < timer + dt then (0, true) else (timer + dt, false) := rfl

/-- C6: the spawn scheduler accumulates dt in a scalar timer, fires exactly
when the accumulated value strictly exceeds the interval, on firing resets
the timer to zero rather than subtracting the interval, the engine cycle
appends at most one projectile beyond the survivors of the update loop, and
fed dt = 0.2 s against a 0.5 s interval the spawns fire exactly on frames
3, 6 and 9 of the first ten. -/
theorem spawn_cadence :
    (∀ interval timer dt : ℚ,
        ((schedStep interval timer dt).2 = true ↔ interval < timer + dt)
      ∧ ((schedStep interval timer dt).2 = true →
          (schedStep interval timer dt).1 = 0))
    ∧ (schedTrace (1/2) 0 1
        [1/5, 1/5, 1/5, 1/5, 1/5, 1/5, 1/5, 1/5, 1/5, 1/5]).2 = [3, 6, 9]
    ∧ (∀ (dt : ℚ) (rnd : Nat → ℚ) (spawnP : Projectile) (st : EngineState),
        (engineCycle dt rnd spawnP st).projectiles.length ≤
          (engineRun dt rnd 0 st.projectiles).1.length + 1) := by
  refine ⟨?_, ?_, ?_⟩
  · intro interval timer dt
    rw [schedStep_eq]
    by_cases h : interval < timer + dt
    · simp [h]
    · simp [h]
  · norm_num [schedTrace, schedStep]
  · intro dt rnd spawnP st
    simp only [engineCycle]
    split
    · simp [List.length_append]
    · exact Nat.le_succ _

/-- Witness for spawn_cadence: a timer at 0.4 s fed 0.2 s exceeds the 0.5 s
interval and is reset to zero. -/
theorem spawn_cadence_witness :
    (schedStep (1/2) (2/5) (1/5)).1 = 0 :=
  (spawn_cadence.1 (1/2) (2/5) (1/5)).2 (by norm_num [schedStep])

/- ------------------------------------------------------------------ -/
/- Degenerate aim direction (C9).                                      -/
/- ------------------------------------------------------------------ -/

/-- C9: evaluating the aimed-at-center policy at the degenerate input — the
spawn position equal to the target center, a zero-length direction — the
redalert code silently substitutes norm 1 and returns the well-defined
velocity (0, 40, 0) for a normal projectile, whereas the spec-modelled policy
signals InvalidSpawnGeometry; no file of the repository signals any such
condition (and the variants without the norm == 0 guard divide by the zero
norm instead). -/
theorem spawn_zero_direction_no_failure :
    spawn_aim_redalert centerR 0 = ⟨0, 40, 0⟩
    ∧ spawn_aim_spec centerR 0 =
        Except.error SpawnError.invalidSpawnGeometry := by
  constructor
  · norm_num [spawn_aim_redalert, vsub, smul, centerR, Vec3.mk.injEq]
  · norm_num [spawn_aim_spec, vsub, normSq, centerR]

end DomeSim
